import Mathlib

/-! Verification of the ChRIS store plugin manager
(`store_backend/plugins/services/manager.py`).

The Python module is shallowly embedded.  The external collaborators — the
Django ORM plugin table, the user table, the file system and the standard
`json` module — are modelled as explicit data, and each manager operation
becomes a pure function from the collaborator state to the new state
together with the error it raises, if any. -/

namespace ChrisStore

/-! ## Model of the `json` standard-library collaborator

`json.loads` / `json.dumps` are modelled on JSON values.  Numbers are
modelled as integers, strings over arbitrary characters with escaping of
the quote and backslash characters (the control-character escapes of the
real library are not modelled).  Object members keep their textual order,
so a duplicate key is kept twice where Python's dict would keep the last
binding; the claims checked below do not depend on that corner. -/

/-- JSON values as produced by `json.loads`. -/
inductive Json where
  | null : Json
  | bool (b : Bool) : Json
  | num (n : Int) : Json
  | str (s : List Char) : Json
  | arr (elems : List Json) : Json
  | obj (members : List (List Char × Json)) : Json
deriving Repr

/-- The double-quote character. -/
def quoteChar : Char := Char.ofNat 34

/-- The backslash character. -/
def backslashChar : Char := Char.ofNat 92

/-- The opening-brace character. -/
def lbraceChar : Char := Char.ofNat 123

/-- The closing-brace character. -/
def rbraceChar : Char := Char.ofNat 125

/-- Serialization of one string character: quote and backslash are escaped. -/
def escapeChar (c : Char) : List Char :=
  if c = quoteChar ∨ c = backslashChar then [backslashChar, c] else [c]

/-- Serialization of a string body. -/
def escapeString : List Char → List Char
  | [] => []
  | c :: s => escapeChar c ++ escapeString s

/-- The character of a decimal digit. -/
def digitChar (d : Nat) : Char := Char.ofNat (48 + d)

/-- Decimal rendering of a natural number on a recursion budget
(`n < fuel` suffices, one fuel unit per digit). -/
def dumpNatAux : Nat → Nat → List Char
  | 0, _ => []
  | fuel + 1, n =>
    if n < 10 then [digitChar n]
    else dumpNatAux fuel (n / 10) ++ [digitChar (n % 10)]

/-- Decimal rendering of a natural number. -/
def dumpNat (n : Nat) : List Char := dumpNatAux (n + 1) n

/-- Decimal rendering of an integer. -/
def dumpInt (n : Int) : List Char :=
  if n < 0 then '-' :: dumpNat n.natAbs else dumpNat n.toNat

mutual

/-- Model of `json.dumps` (whitespace in the separators is not modelled;
it is insignificant for the JSON value). -/
def dumps : Json → List Char
  | .null => 'n' :: 'u' :: 'l' :: 'l' :: []
  | .bool true => 't' :: 'r' :: 'u' :: 'e' :: []
  | .bool false => 'f' :: 'a' :: 'l' :: 's' :: 'e' :: []
  | .num n => dumpInt n
  | .str s => quoteChar :: (escapeString s ++ [quoteChar])
  | .arr es => '[' :: (dumpsElems es ++ [']'])
  | .obj ms => lbraceChar :: (dumpsMembers ms ++ [rbraceChar])

/-- Serialization of the comma-separated element list of an array. -/
def dumpsElems : List Json → List Char
  | [] => []
  | [e] => dumps e
  | e :: e2 :: es => dumps e ++ ',' :: dumpsElems (e2 :: es)

/-- Serialization of the comma-separated member list of an object. -/
def dumpsMembers : List (List Char × Json) → List Char
  | [] => []
  | [(k, v)] => quoteChar :: (escapeString k ++ [quoteChar, ':'] ++ dumps v)
  | (k, v) :: m2 :: ms =>
      quoteChar :: (escapeString k ++ [quoteChar, ':'] ++ dumps v
        ++ ',' :: dumpsMembers (m2 :: ms))

end

/-- Numeric value of a digit character. -/
def digitVal (c : Char) : Nat := c.toNat - 48

/-- One step of decimal-value accumulation. -/
def accDigit (acc : Nat) (c : Char) : Nat := 10 * acc + digitVal c

/-- Greedy run of decimal digits, accumulating the value. -/
def parseDigits : Nat → List Char → Nat × List Char
  | acc, [] => (acc, [])
  | acc, c :: r =>
    if c.isDigit then parseDigits (accDigit acc c) r else (acc, c :: r)

/-- A non-empty run of decimal digits. -/
def parseNat : List Char → Option (Nat × List Char)
  | [] => none
  | c :: r => if c.isDigit then some (parseDigits (digitVal c) r) else none

/-- Body of a JSON string after its opening quote, up to the closing
quote, decoding the two modelled escapes. -/
def parseStringBody : List Char → Option (List Char × List Char)
  | [] => none
  | [c] => if c = quoteChar then some ([], []) else none
  | c :: c2 :: r2 =>
    if c = quoteChar then some ([], c2 :: r2)
    else if c = backslashChar then
      if c2 = quoteChar ∨ c2 = backslashChar then
        match parseStringBody r2 with
        | none => none
        | some (s, rest) => some (c2 :: s, rest)
      else none
    else
      match parseStringBody (c2 :: r2) with
      | none => none
      | some (s, rest) => some (c :: s, rest)

/-- Whether the first character, when there is one, is a decimal digit. -/
def headIsDigit (l : List Char) : Bool :=
  match l with
  | [] => false
  | c :: _ => c.isDigit

/-- Comma-separated array elements up to the closing bracket, on a
recursion budget, parsing each element with `pv`. -/
def parseElemsAux (pv : List Char → Option (Json × List Char)) :
    Nat → List Char → Option (List Json × List Char)
  | 0, _ => none
  | fuel + 1, l =>
    match pv l with
    | none => none
    | some (v, rest) =>
      match rest with
      | ']' :: r2 => some ([v], r2)
      | ',' :: r2 =>
        match parseElemsAux pv fuel r2 with
        | none => none
        | some (es, r3) => some (v :: es, r3)
      | _ => none

/-- Comma-separated object members up to the closing brace, on a
recursion budget, parsing each value with `pv`. -/
def parseMembersAux (pv : List Char → Option (Json × List Char)) :
    Nat → List Char → Option (List (List Char × Json) × List Char)
  | 0, _ => none
  | fuel + 1, l =>
    match l with
    | [] => none
    | c :: r =>
      if c = quoteChar then
        match parseStringBody r with
        | none => none
        | some (k, rest) =>
          match rest with
          | ':' :: r2 =>
            match pv r2 with
            | none => none
            | some (v, r3) =>
              if r3.head? = some rbraceChar then some ([(k, v)], r3.tail)
              else
                match r3 with
                | ',' :: r4 =>
                  match parseMembersAux pv fuel r4 with
                  | none => none
                  | some (ms, r5) => some ((k, v) :: ms, r5)
                | _ => none
          | _ => none
      else none

/-- One JSON value on a recursion budget, returning it with the unread
suffix. -/
def parseVal : Nat → List Char → Option (Json × List Char)
  | 0, _ => none
  | fuel + 1, l =>
    match l with
    | [] => none
    | c :: r =>
      if c = 'n' then
        match r with
        | 'u' :: 'l' :: 'l' :: r2 => some (.null, r2)
        | _ => none
      else if c = 't' then
        match r with
        | 'r' :: 'u' :: 'e' :: r2 => some (.bool true, r2)
        | _ => none
      else if c = 'f' then
        match r with
        | 'a' :: 'l' :: 's' :: 'e' :: r2 => some (.bool false, r2)
        | _ => none
      else if c = quoteChar then
        match parseStringBody r with
        | none => none
        | some (s, rest) => some (.str s, rest)
      else if c = '[' then
        if r.head? = some ']' then some (.arr [], r.tail)
        else
          match parseElemsAux (parseVal fuel) fuel r with
          | none => none
          | some (es, rest) => some (.arr es, rest)
      else if c = lbraceChar then
        if r.head? = some rbraceChar then some (.obj [], r.tail)
        else
          match parseMembersAux (parseVal fuel) fuel r with
          | none => none
          | some (ms, rest) => some (.obj ms, rest)
      else if c = '-' then
        match parseNat r with
        | none => none
        | some (m, rest) => some (.num (-(m : Int)), rest)
      else if c.isDigit then
        match parseNat (c :: r) with
        | none => none
        | some (m, rest) => some (.num (m : Int), rest)
      else none

/-- Model of `json.loads`: the whole input must be one JSON value.  The
recursion budget `length + 1` suffices because every recursive step
consumes at least one character. -/
def loads (s : String) : Option Json :=
  match parseVal (s.data.length + 1) s.data with
  | some (v, []) => some v
  | _ => none

/-! ## Data model: collaborator state and the plugin table

`Plugin` follows the fields the spec's data-model section lists for the
`plugins.models.Plugin` row; the many-to-many `owner` relation is the list
of owner usernames.  `Store` is the plugin table together with the
primary-key counter, `Env` the remaining collaborators: the user table (a
list of existing usernames), the file system, and the clock read by
`timezone.now()`. -/

/-- Errors raised by the manager or its collaborators. -/
inductive Err where
  | usageError : Err
  | typeError : Err
  | malformedDescriptor : Err
  | fileNotFound : Err
  | missingVersion : Err
  | validationError : Err
  | ownerNotFound : Err
  | notFound : Err
deriving Repr, DecidableEq

/-- A named byte blob, as stored in the `descriptor_file` field. -/
structure NamedBlob where
  name : String
  content : String
deriving Repr, DecidableEq

/-- The value returned by `get_plugin_descriptor_file`: either the path
string taken verbatim from `--descriptorfile`, or the in-memory
`ContentFile` built from `--descriptorstring`. -/
inductive DescriptorFile where
  | filePath (p : String) : DescriptorFile
  | contentFile (name : String) (content : String) : DescriptorFile
deriving Repr, DecidableEq

/-- One row of the plugin table. -/
structure Plugin where
  id : Nat
  name : String
  owner : List String
  public_repo : String
  dock_image : String
  descriptor_file : NamedBlob
  version : String
  creation_date : Nat
  modification_date : Nat
deriving Repr, DecidableEq

/-- The plugin table with its primary-key counter. -/
structure Store where
  plugins : List Plugin
  nextId : Nat
deriving Repr, DecidableEq

/-- The remaining collaborator state: existing usernames, the file system
(path to content), and the current time. -/
structure Env where
  users : List String
  fs : List (String × String)
  now : Nat
deriving Repr, DecidableEq

/-- Python truthiness of an optional string argument (`if args.x:`):
absent and empty are both falsy. -/
def truthy (o : Option String) : Bool :=
  match o with
  | none => false
  | some s => !s.isEmpty

/-- Resolution of a `DescriptorFile` value to the named blob it denotes:
a path denotes the named file's byte content under the file-system
collaborator, a `ContentFile` carries its own name and content. -/
def resolveBlob (fs : List (String × String)) : DescriptorFile → Option NamedBlob
  | .filePath p =>
    match fs.lookup p with
    | none => none
    | some content => some ⟨p, content⟩
  | .contentFile n c => some ⟨n, c⟩

/-- Lookup of a top-level member of a JSON object; the last binding wins,
as in the Python dict produced by `json.loads`. -/
def lookupMember (key : List Char) : List (List Char × Json) → Option Json
  | [] => none
  | (k, v) :: ms =>
    match lookupMember key ms with
    | some r => some r
    | none => if k = key then some v else none

/-- The characters of the `version` key. -/
def versionKey : List Char := "version".data

namespace PluginManager

/-- Shallow embedding of `PluginManager.get_plugin_descriptor_file`
(manager.py lines 128-139): a truthy `--descriptorfile` is returned as the
path string itself; otherwise `--descriptorstring` is parsed as JSON
(`json.loads`, raising on malformed input — on `None` it raises a
`TypeError`) and re-serialized into a `ContentFile` named
`<plugin-name>.json`. -/
def get_plugin_descriptor_file (name : String)
    (descriptorfile descriptorstring : Option String) : Except Err DescriptorFile :=
  if truthy descriptorfile then .ok (.filePath (descriptorfile.getD ""))
  else
    match descriptorstring with
    | none => .error .typeError
    | some s =>
      match loads s with
      | none => .error .malformedDescriptor
      | some app_repr => .ok (.contentFile (name ++ ".json") (String.mk (dumps app_repr)))

/-- Modelled from the spec:
`PluginSerializer.get_plugin_version_from_app_representation` lives in
`plugins/serializers.py`, which is not among the sources.  Spec section 4.1:
version extraction parses the resolved blob's JSON content and returns the
`version` field of its top-level representation (a string, per section 6),
failing when the blob cannot be read, is not valid JSON, or has no such
field (`MissingVersionError`). -/
def get_plugin_version_from_app_representation (fs : List (String × String))
    (df : DescriptorFile) : Except Err String :=
  match resolveBlob fs df with
  | none => .error .fileNotFound
  | some blob =>
    match loads blob.content with
    | none => .error .malformedDescriptor
    | some (Json.obj ms) =>
      match lookupMember versionKey ms with
      | some (Json.str s) => .ok (String.mk s)
      | _ => .error .missingVersion
    | some _ => .error .missingVersion

/-- Modelled from the spec: the `PluginSerializer` field validation run by
`is_valid(raise_exception=True)` (serializer source not among the sources).
Spec section 4.2: required fields are name, public_repo, dock_image,
descriptor_file and version; a missing or empty one raises
`ValidationError`.  The descriptor file is present by construction at both
call sites. -/
def serializer_is_valid (name public_repo dock_image version : String) : Bool :=
  !(name.isEmpty || public_repo.isEmpty || dock_image.isEmpty || version.isEmpty)

/-- Shallow embedding of `PluginManager.get_plugin` (manager.py lines
117-126): primary-key lookup; `None` stands for the `NameError` raised on
a missing id. -/
def get_plugin (store : Store) (pid : Nat) : Option Plugin :=
  store.plugins.find? (fun p => p.id == pid)

/-- An ORM row update: the row with the given plugin's id is replaced. -/
def updatePlugin (store : Store) (p : Plugin) : Store :=
  { store with plugins := store.plugins.map (fun q => if q.id = p.id then p else q) }

/-- Shallow embedding of `PluginManager.add_plugin` (manager.py lines
58-70), in source order: resolve the descriptor argument, extract the
version, validate the candidate data, look up the owner
(`User.objects.get`, raising when absent), then save a new row with that
owner as sole owner.  The result pairs the table after the call with the
raised error, if any. -/
def add_plugin (env : Env) (store : Store) (name owner publicrepo dockerimage : String)
    (descriptorfile descriptorstring : Option String) : Store × Option Err :=
  match get_plugin_descriptor_file name descriptorfile descriptorstring with
  | .error e => (store, some e)
  | .ok df =>
    match get_plugin_version_from_app_representation env.fs df with
    | .error e => (store, some e)
    | .ok version =>
      if serializer_is_valid name publicrepo dockerimage version then
        if owner ∈ env.users then
          match resolveBlob env.fs df with
          | none => (store, some .fileNotFound)
          | some blob =>
            ({ plugins := store.plugins ++
                [{ id := store.nextId, name := name, owner := [owner],
                   public_repo := publicrepo, dock_image := dockerimage,
                   descriptor_file := blob, version := version,
                   creation_date := env.now, modification_date := env.now }],
               nextId := store.nextId + 1 }, none)
        else (store, some .ownerNotFound)
      else (store, some .validationError)

/-- Shallow embedding of `PluginManager.modify_plugin` (manager.py lines
72-92), in source order: look up the row, validate the candidate that
keeps name/descriptor/version and carries the new public_repo and
dock_image, then `plg_serializer.save()` persists those two fields
*before* the new-owner block runs; a truthy `--newowner` not among the
current owners is resolved against the user table
(`validate_new_owner`, raising when absent — at which point the earlier
save is already persisted) and appended; on success the modification date
is stamped with the current time and the row saved again. -/
def modify_plugin (env : Env) (store : Store) (pid : Nat)
    (publicrepo dockerimage : String) (newowner : Option String) : Store × Option Err :=
  match get_plugin store pid with
  | none => (store, some .notFound)
  | some plugin =>
    if serializer_is_valid plugin.name publicrepo dockerimage plugin.version then
      let plugin1 := { plugin with public_repo := publicrepo, dock_image := dockerimage }
      let store1 := updatePlugin store plugin1
      if truthy newowner then
        let u := newowner.getD ""
        if u ∈ plugin.owner then
          (updatePlugin store1 { plugin1 with modification_date := env.now }, none)
        else if u ∈ env.users then
          (updatePlugin store1
            { plugin1 with owner := plugin.owner ++ [u],
                           modification_date := env.now }, none)
        else (store1, some .ownerNotFound)
      else
        (updatePlugin store1 { plugin1 with modification_date := env.now }, none)
    else (store, some .validationError)

/-- Shallow embedding of `PluginManager.remove_plugin` (manager.py lines
94-99): look up the row (raising on a missing id), then delete it. -/
def remove_plugin (store : Store) (pid : Nat) : Store × Option Err :=
  match get_plugin store pid with
  | none => (store, some .notFound)
  | some _ =>
    ({ store with plugins := store.plugins.eraseP (fun q => q.id == pid) }, none)

/-- A parsed command line, one constructor per sub-command, with the
optional arguments kept optional. -/
inductive Cmd where
  | add (name owner publicrepo dockerimage : String)
      (descriptorfile descriptorstring : Option String) : Cmd
  | modify (id : Nat) (publicrepo dockerimage : String) (newowner : Option String) : Cmd
  | remove (id : Nat) : Cmd
deriving Repr, DecidableEq

/-- Shallow embedding of `PluginManager.run` (manager.py lines 101-115)
together with the argparse layer it drives: `--descriptorfile` and
`--descriptorstring` form a mutually exclusive group, so supplying both is
a usage error raised by `parse_args`; supplying neither (or only falsy
values) hits the explicit `parser.error` in `run`.  Both errors fire
before any operation runs. -/
def run (env : Env) (store : Store) : Cmd → Store × Option Err
  | .add n o pr di df ds =>
    if df.isSome && ds.isSome then (store, some .usageError)
    else if !truthy df && !truthy ds then (store, some .usageError)
    else add_plugin env store n o pr di df ds
  | .modify pid pr di no => modify_plugin env store pid pr di no
  | .remove pid => remove_plugin store pid

end PluginManager

/-! ## Shared concrete fixtures for the witness theorems -/

/-- A small JSON descriptor text, `\x7b"version":"1.0"\x7d`. -/
def sampleDescriptor : String := "\x7b\x22version\x22:\x221.0\x22\x7d"

/-- A sample plugin row. -/
def samplePlugin : Plugin :=
  ⟨1, "simplefsapp", ["cube"], "https://github.com/x/simplefsapp",
    "fnndsc/simplefsapp", ⟨"simplefsapp.json", sampleDescriptor⟩, "1.0", 42, 42⟩

/-- A store holding the sample plugin. -/
def sampleStore : Store := ⟨[samplePlugin], 2⟩

/-- A collaborator state with two users, one descriptor file and a clock. -/
def sampleEnv : Env := ⟨["cube", "alice"], [("descr.json", sampleDescriptor)], 99⟩

/-! ## Round trip of the `json` model: `loads (dumps v) = some v` -/

theorem digitChar_isDigit {d : Nat} (h : d < 10) : (digitChar d).isDigit = true := by
  interval_cases d <;> decide

theorem digitVal_digitChar {d : Nat} (h : d < 10) : digitVal (digitChar d) = d := by
  interval_cases d <;> decide

theorem dumpNatAux_ne_nil {fuel n : Nat} (h : n < fuel) : dumpNatAux fuel n ≠ [] := by
  cases fuel with
  | zero => omega
  | succ fuel =>
    rw [dumpNatAux]
    split <;> simp

theorem dumpNatAux_digits {fuel : Nat} :
    ∀ {n : Nat}, n < fuel → ∀ c ∈ dumpNatAux fuel n, c.isDigit = true := by
  induction fuel with
  | zero => omega
  | succ fuel ih =>
    intro n h c hc
    rw [dumpNatAux] at hc
    split at hc
    · rcases List.mem_singleton.mp hc with rfl
      exact digitChar_isDigit (by omega)
    · rcases List.mem_append.mp hc with hc | hc
      · exact ih (by omega) c hc
      · rcases List.mem_singleton.mp hc with rfl
        exact digitChar_isDigit (by omega)

theorem foldl_dumpNatAux {fuel : Nat} :
    ∀ {n : Nat}, n < fuel → ∀ acc,
      (dumpNatAux fuel n).foldl accDigit acc =
        acc * 10 ^ (dumpNatAux fuel n).length + n := by
  induction fuel with
  | zero => omega
  | succ fuel ih =>
    intro n h acc
    rw [dumpNatAux]
    split
    · rw [List.foldl_cons, List.foldl_nil]
      simp only [List.length_cons, List.length_nil, accDigit,
        digitVal_digitChar (by omega : n < 10), pow_succ, pow_zero]
      omega
    · rw [List.foldl_append, List.foldl_cons, List.foldl_nil, ih (by omega) acc]
      simp only [accDigit, digitVal_digitChar (by omega : n % 10 < 10),
        List.length_append, List.length_cons, List.length_nil, pow_succ, pow_zero]
      generalize (10 : Nat) ^ (dumpNatAux fuel (n / 10)).length = A
      ring_nf
      linarith [Nat.div_add_mod n 10]

theorem dumpNat_ne_nil (n : Nat) : dumpNat n ≠ [] :=
  dumpNatAux_ne_nil (Nat.lt_succ_self n)

theorem dumpNat_digits (n : Nat) : ∀ c ∈ dumpNat n, c.isDigit = true :=
  dumpNatAux_digits (Nat.lt_succ_self n)

theorem foldl_dumpNat (n : Nat) : (dumpNat n).foldl accDigit 0 = n := by
  rw [dumpNat, foldl_dumpNatAux (Nat.lt_succ_self n) 0, Nat.zero_mul, Nat.zero_add]

theorem parseDigits_append :
    ∀ (L : List Char), (∀ c ∈ L, c.isDigit = true) →
      ∀ (rest : List Char), headIsDigit rest = false → ∀ acc,
        parseDigits acc (L ++ rest) = (L.foldl accDigit acc, rest) := by
  intro L
  induction L with
  | nil =>
    intro _ rest hrest acc
    cases rest with
    | nil => rfl
    | cons c r =>
      simp only [headIsDigit] at hrest
      simp [parseDigits, hrest]
  | cons c L ih =>
    intro hdig rest hrest acc
    have hc : c.isDigit = true := hdig c (by simp)
    simp only [List.cons_append, parseDigits, hc, if_pos, List.append_eq]
    rw [ih (fun x hx => hdig x (by simp [hx])) rest hrest, List.foldl_cons]

theorem parseNat_dumpNat (n : Nat) {rest : List Char} (hrest : headIsDigit rest = false) :
    parseNat (dumpNat n ++ rest) = some (n, rest) := by
  obtain ⟨c, L, hcL⟩ := List.exists_cons_of_ne_nil (dumpNat_ne_nil n)
  have hc : c.isDigit = true := by
    apply dumpNat_digits n
    rw [hcL]; simp
  have hL : ∀ x ∈ L, x.isDigit = true := by
    intro x hx
    apply dumpNat_digits n
    rw [hcL]; simp [hx]
  rw [hcL, List.cons_append, parseNat, if_pos hc,
    parseDigits_append L hL rest hrest]
  have : L.foldl accDigit (digitVal c) = n := by
    have h0 : accDigit 0 c = digitVal c := by simp [accDigit]
    calc L.foldl accDigit (digitVal c)
        = (c :: L).foldl accDigit 0 := by rw [List.foldl_cons, h0]
      _ = (dumpNat n).foldl accDigit 0 := by rw [hcL]
      _ = n := foldl_dumpNat n
  rw [this]

theorem parseStringBody_escape :
    ∀ (s rest : List Char),
      parseStringBody (escapeString s ++ (quoteChar :: rest)) = some (s, rest) := by
  intro s
  induction s with
  | nil =>
    intro rest
    cases rest with
    | nil => rfl
    | cons c r => simp [escapeString, parseStringBody]
  | cons c s ih =>
    intro rest
    by_cases hc : c = quoteChar ∨ c = backslashChar
    · simp only [escapeString, escapeChar, if_pos hc, List.cons_append, List.nil_append]
      have hbq : ¬ backslashChar = quoteChar := by decide
      rw [parseStringBody, if_neg hbq, if_pos rfl, if_pos hc, ih rest]
    · simp only [escapeString, escapeChar, if_neg hc, List.cons_append, List.nil_append]
      have h1 : ¬ c = quoteChar := fun h => hc (Or.inl h)
      have h2 : ¬ c = backslashChar := fun h => hc (Or.inr h)
      cases hE : escapeString s ++ (quoteChar :: rest) with
      | nil => exact absurd hE (by simp)
      | cons c2 r2 =>
        have ih2 := ih rest
        rw [hE] at ih2
        rw [parseStringBody, if_neg h1, if_neg h2, ih2]

theorem parseVal_null (fuel : Nat) (r : List Char) :
    parseVal (fuel + 1) ('n' :: 'u' :: 'l' :: 'l' :: r) = some (.null, r) := rfl

theorem parseVal_true (fuel : Nat) (r : List Char) :
    parseVal (fuel + 1) ('t' :: 'r' :: 'u' :: 'e' :: r) = some (.bool true, r) := rfl

theorem parseVal_false (fuel : Nat) (r : List Char) :
    parseVal (fuel + 1) ('f' :: 'a' :: 'l' :: 's' :: 'e' :: r) = some (.bool false, r) := rfl

theorem parseVal_quote (fuel : Nat) (r : List Char) :
    parseVal (fuel + 1) (quoteChar :: r) =
      match parseStringBody r with
      | none => none
      | some (s, rest) => some (Json.str s, rest) := rfl

theorem parseVal_lbrack (fuel : Nat) (r : List Char) :
    parseVal (fuel + 1) ('[' :: r) =
      if r.head? = some ']' then some (Json.arr [], r.tail)
      else
        match parseElemsAux (parseVal fuel) fuel r with
        | none => none
        | some (es, rest) => some (Json.arr es, rest) := rfl

theorem parseVal_lbrace (fuel : Nat) (r : List Char) :
    parseVal (fuel + 1) (lbraceChar :: r) =
      if r.head? = some rbraceChar then some (Json.obj [], r.tail)
      else
        match parseMembersAux (parseVal fuel) fuel r with
        | none => none
        | some (ms, rest) => some (Json.obj ms, rest) := rfl

theorem parseVal_minus (fuel : Nat) (r : List Char) :
    parseVal (fuel + 1) ('-' :: r) =
      match parseNat r with
      | none => none
      | some (m, rest) => some (Json.num (-(m : Int)), rest) := rfl

theorem parseVal_digit (fuel : Nat) {c : Char} (h : c.isDigit = true) (r : List Char) :
    parseVal (fuel + 1) (c :: r) =
      match parseNat (c :: r) with
      | none => none
      | some (m, rest) => some (Json.num (m : Int), rest) := by
  have hn : ¬ c = 'n' := fun e => absurd h (by rw [e]; decide)
  have ht : ¬ c = 't' := fun e => absurd h (by rw [e]; decide)
  have hf : ¬ c = 'f' := fun e => absurd h (by rw [e]; decide)
  have hq : ¬ c = quoteChar := fun e => absurd h (by rw [e]; decide)
  have hk : ¬ c = '[' := fun e => absurd h (by rw [e]; decide)
  have hb : ¬ c = lbraceChar := fun e => absurd h (by rw [e]; decide)
  have hm : ¬ c = '-' := fun e => absurd h (by rw [e]; decide)
  simp only [parseVal]
  rw [if_neg hn, if_neg ht, if_neg hf, if_neg hq, if_neg hk, if_neg hb, if_neg hm, if_pos h]

theorem dumps_ne_nil (v : Json) : dumps v ≠ [] := by
  cases v with
  | bool b => cases b <;> simp [dumps]
  | num n =>
    simp only [dumps, dumpInt]
    split
    · simp
    · exact dumpNat_ne_nil _
  | _ => simp [dumps]

theorem dumps_head (v : Json) :
    ∀ c, (dumps v).head? = some c →
      c = 'n' ∨ c = 't' ∨ c = 'f' ∨ c = '-' ∨ c.isDigit = true ∨
        c = quoteChar ∨ c = '[' ∨ c = lbraceChar := by
  intro c h
  cases v with
  | null =>
    simp only [dumps, List.head?_cons, Option.some.injEq] at h
    exact Or.inl h.symm
  | bool b =>
    cases b <;> simp only [dumps, List.head?_cons, Option.some.injEq] at h <;> tauto
  | str s =>
    simp only [dumps, List.head?_cons, Option.some.injEq] at h
    tauto
  | arr es =>
    simp only [dumps, List.head?_cons, Option.some.injEq] at h
    tauto
  | obj ms =>
    simp only [dumps, List.head?_cons, Option.some.injEq] at h
    tauto
  | num n =>
    simp only [dumps, dumpInt] at h
    split at h
    · simp only [List.head?_cons, Option.some.injEq] at h
      tauto
    · obtain ⟨c0, L, hcL⟩ := List.exists_cons_of_ne_nil (dumpNat_ne_nil n.toNat)
      rw [hcL, List.head?_cons, Option.some.injEq] at h
      have hmem : c ∈ dumpNat n.toNat := by
        rw [hcL, h]
        exact List.mem_cons_self _ _
      exact Or.inr (Or.inr (Or.inr (Or.inr (Or.inl (dumpNat_digits n.toNat c hmem)))))

theorem dumpsElems_cons (e : Json) (es : List Json) :
    ∃ X, dumpsElems (e :: es) = dumps e ++ X := by
  cases es with
  | nil => exact ⟨[], by simp [dumpsElems]⟩
  | cons e2 es2 => exact ⟨',' :: dumpsElems (e2 :: es2), by simp [dumpsElems]⟩

theorem dumps_append_head_ne (e : Json) (X : List Char) :
    (dumps e ++ X).head? ≠ some ']' ∧ (dumps e ++ X).head? ≠ some rbraceChar := by
  obtain ⟨c, L, hcL⟩ := List.exists_cons_of_ne_nil (dumps_ne_nil e)
  have hc := dumps_head e c (by rw [hcL]; rfl)
  have h2 : (dumps e ++ X).head? = some c := by rw [hcL]; rfl
  rw [h2]
  constructor <;> intro h <;> rw [Option.some.injEq] at h <;> subst h <;>
    rcases hc with h | h | h | h | h | h | h | h <;> exact absurd h (by decide)

theorem parseElemsAux_dumps {F : Nat} {pv : List Char → Option (Json × List Char)}
    (hpv : ∀ v rest, (dumps v).length ≤ F → headIsDigit rest = false →
      pv (dumps v ++ rest) = some (v, rest)) :
    ∀ (es : List Json) (fuel : Nat) (rest : List Char), es ≠ [] →
      (dumpsElems es).length < fuel → fuel ≤ F →
      parseElemsAux pv fuel (dumpsElems es ++ (']' :: rest)) = some (es, rest) := by
  intro es
  induction es with
  | nil => intro fuel rest h; exact absurd rfl h
  | cons e es ih =>
    intro fuel rest _ hlen hF
    cases fuel with
    | zero => omega
    | succ fuel =>
      cases es with
      | nil =>
        simp only [dumpsElems] at hlen ⊢
        rw [parseElemsAux, hpv e (']' :: rest) (by omega) (by rfl)]
        rfl
      | cons e2 es2 =>
        simp only [dumpsElems, List.length_append, List.length_cons,
          List.append_assoc, List.cons_append] at hlen ⊢
        have hle : (dumps e).length ≤ F := by omega
        rw [parseElemsAux, hpv e (',' :: (dumpsElems (e2 :: es2) ++ ']' :: rest)) hle (by rfl)]
        have hrec := ih fuel rest (by simp) (by omega) (by omega)
        simp only [hrec]

theorem parseMembersAux_dumps {F : Nat} {pv : List Char → Option (Json × List Char)}
    (hpv : ∀ v rest, (dumps v).length ≤ F → headIsDigit rest = false →
      pv (dumps v ++ rest) = some (v, rest)) :
    ∀ (ms : List (List Char × Json)) (fuel : Nat) (rest : List Char), ms ≠ [] →
      (dumpsMembers ms).length < fuel → fuel ≤ F →
      parseMembersAux pv fuel (dumpsMembers ms ++ (rbraceChar :: rest)) = some (ms, rest) := by
  intro ms
  induction ms with
  | nil => intro fuel rest h; exact absurd rfl h
  | cons m ms ih =>
    obtain ⟨k, v⟩ := m
    intro fuel rest _ hlen hF
    cases fuel with
    | zero => omega
    | succ fuel =>
      cases ms with
      | nil =>
        simp only [dumpsMembers, List.length_cons, List.length_append,
          List.append_assoc, List.cons_append, List.nil_append] at hlen ⊢
        rw [parseMembersAux, if_pos rfl, parseStringBody_escape k
          (':' :: (dumps v ++ rbraceChar :: rest))]
        have hv := hpv v (rbraceChar :: rest) (by omega) (by rfl)
        simp [hv]
      | cons m2 ms2 =>
        simp only [dumpsMembers, List.length_cons, List.length_append,
          List.append_assoc, List.cons_append, List.nil_append] at hlen ⊢
        rw [parseMembersAux, if_pos rfl, parseStringBody_escape k
          (':' :: (dumps v ++ ',' :: (dumpsMembers (m2 :: ms2) ++ rbraceChar :: rest)))]
        have hv := hpv v (',' :: (dumpsMembers (m2 :: ms2) ++ rbraceChar :: rest))
          (by omega) (by rfl)
        simp only [hv, List.head?_cons]
        rw [if_neg (by decide)]
        have hrec := ih fuel rest (by simp) (by omega) (by omega)
        simp only [hrec]

theorem parseVal_dumps :
    ∀ (fuel : Nat) (v : Json) (rest : List Char),
      (dumps v).length ≤ fuel → headIsDigit rest = false →
      parseVal fuel (dumps v ++ rest) = some (v, rest) := by
  intro fuel
  induction fuel with
  | zero =>
    intro v rest hlen _
    exact absurd (List.eq_nil_of_length_eq_zero (by omega)) (dumps_ne_nil v)
  | succ fuel ih =>
    intro v rest hlen hrest
    cases v with
    | null =>
      simp only [dumps, List.cons_append, List.nil_append]
      exact parseVal_null fuel rest
    | bool b =>
      cases b <;> simp only [dumps, List.cons_append, List.nil_append]
      · exact parseVal_false fuel rest
      · exact parseVal_true fuel rest
    | num n =>
      by_cases hn : n < 0
      · simp only [dumps, dumpInt, if_pos hn, List.cons_append]
        rw [parseVal_minus, parseNat_dumpNat n.natAbs hrest]
        have h2 : -(n.natAbs : Int) = n := by omega
        show some (Json.num (-(n.natAbs : Int)), rest) = some (Json.num n, rest)
        rw [h2]
      · simp only [dumps, dumpInt, if_neg hn]
        obtain ⟨c, L, hcL⟩ := List.exists_cons_of_ne_nil (dumpNat_ne_nil n.toNat)
        have hc : c.isDigit = true := by
          apply dumpNat_digits n.toNat
          rw [hcL]
          exact List.mem_cons_self _ _
        rw [hcL, List.cons_append, parseVal_digit fuel hc, ← List.cons_append, ← hcL,
          parseNat_dumpNat n.toNat hrest]
        have h2 : (n.toNat : Int) = n := by omega
        show some (Json.num (n.toNat : Int), rest) = some (Json.num n, rest)
        rw [h2]
    | str s =>
      simp only [dumps, List.cons_append, List.append_assoc, List.singleton_append,
        List.nil_append]
      rw [parseVal_quote, parseStringBody_escape s rest]
    | arr es =>
      cases es with
      | nil =>
        simp only [dumps, dumpsElems, List.nil_append, List.cons_append,
          List.singleton_append]
        rw [parseVal_lbrack]
        simp
      | cons e es2 =>
        have hlen2 : (dumpsElems (e :: es2)).length < fuel := by
          simp only [dumps, List.length_cons, List.length_append,
            List.length_singleton] at hlen
          omega
        simp only [dumps, List.cons_append, List.append_assoc, List.singleton_append,
          List.nil_append]
        rw [parseVal_lbrack]
        obtain ⟨X, hX⟩ := dumpsElems_cons e es2
        rw [if_neg (by rw [hX, List.append_assoc]; exact (dumps_append_head_ne e _).1)]
        rw [parseElemsAux_dumps ih (e :: es2) fuel rest (by simp) hlen2 (le_refl fuel)]
    | obj ms =>
      cases ms with
      | nil =>
        simp only [dumps, dumpsMembers, List.nil_append, List.cons_append,
          List.singleton_append]
        rw [parseVal_lbrace]
        simp
      | cons m ms2 =>
        obtain ⟨k, mv⟩ := m
        have hlen2 : (dumpsMembers ((k, mv) :: ms2)).length < fuel := by
          simp only [dumps, List.length_cons, List.length_append,
            List.length_singleton] at hlen
          omega
        simp only [dumps, List.cons_append, List.append_assoc, List.singleton_append,
          List.nil_append]
        rw [parseVal_lbrace]
        have hne : (dumpsMembers ((k, mv) :: ms2) ++ rbraceChar :: rest).head? ≠
            some rbraceChar := by
          cases ms2 with
          | nil => simp [dumpsMembers, List.head?_cons]; decide
          | cons m2 ms3 => simp [dumpsMembers, List.head?_cons]; decide
        rw [if_neg hne]
        rw [parseMembersAux_dumps ih ((k, mv) :: ms2) fuel rest (by simp) hlen2
          (le_refl fuel)]

theorem loads_dumps (v : Json) : loads (String.mk (dumps v)) = some v := by
  have h := parseVal_dumps ((dumps v).length + 1) v [] (by omega) (by rfl)
  rw [List.append_nil] at h
  unfold loads
  rw [show (String.mk (dumps v)).data = dumps v from rfl, h]


/-! ## Helper lemmas about the table operations -/

namespace PluginManager

theorem get_plugin_id {store : Store} {pid : Nat} {p : Plugin}
    (h : get_plugin store pid = some p) : p.id = pid := by
  have h2 := List.find?_some h
  simpa using h2

theorem get_plugin_mem {store : Store} {pid : Nat} {p : Plugin}
    (h : get_plugin store pid = some p) : p ∈ store.plugins :=
  List.mem_of_find?_eq_some h

theorem find?_update {l : List Plugin} {pid : Nat} {p : Plugin}
    (h : l.find? (fun q => q.id == pid) = some p) (p' : Plugin) (hid : p'.id = pid) :
    (l.map (fun q => if q.id = p'.id then p' else q)).find? (fun q => q.id == pid)
      = some p' := by
  induction l with
  | nil => simp at h
  | cons a l ih =>
    by_cases ha : a.id = pid
    · have hhead : (if a.id = p'.id then p' else a) = p' := if_pos (by rw [ha, hid])
      rw [List.map_cons, hhead, List.find?_cons,
        show (p'.id == pid) = true by simp [hid]]
    · have hh2 : (a.id == pid) = false := by simp [ha]
      rw [List.find?_cons, hh2] at h
      have hhead : (if a.id = p'.id then p' else a) = a := if_neg (by rw [hid]; exact ha)
      rw [List.map_cons, hhead, List.find?_cons, hh2]
      exact ih h

theorem get_plugin_updatePlugin {store : Store} {pid : Nat} {p : Plugin}
    (h : get_plugin store pid = some p) (p' : Plugin) (hid : p'.id = pid) :
    get_plugin (updatePlugin store p') pid = some p' := by
  unfold get_plugin updatePlugin at *
  exact find?_update h p' hid

theorem updatePlugin_length (store : Store) (p' : Plugin) :
    (updatePlugin store p').plugins.length = store.plugins.length := by
  simp [updatePlugin]

theorem updatePlugin_frame {store : Store} {p' : Plugin} {i : Nat} {q : Plugin}
    (hq : store.plugins[i]? = some q) (hne : q.id ≠ p'.id) :
    (updatePlugin store p').plugins[i]? = some q := by
  unfold updatePlugin
  simp only [List.getElem?_map, hq, Option.map_some']
  rw [if_neg hne]

theorem mem_updatePlugin {store : Store} {p' : Plugin} {q : Plugin}
    (hq : q ∈ (updatePlugin store p').plugins) : q = p' ∨ q ∈ store.plugins := by
  unfold updatePlugin at hq
  rcases List.mem_map.mp hq with ⟨a, ha, hEq⟩
  by_cases h : a.id = p'.id
  · rw [if_pos h] at hEq
    exact Or.inl hEq.symm
  · rw [if_neg h] at hEq
    exact Or.inr (hEq ▸ ha)

theorem double_update {store : Store} {pid : Nat} {p : Plugin}
    (hp : get_plugin store pid = some p) (p1 p2 : Plugin)
    (h1 : p1.id = pid) (h2 : p2.id = pid) :
    get_plugin (updatePlugin (updatePlugin store p1) p2) pid = some p2 ∧
    (updatePlugin (updatePlugin store p1) p2).plugins.length = store.plugins.length ∧
    ∀ (i : Nat) (q : Plugin), store.plugins[i]? = some q → q.id ≠ pid →
      (updatePlugin (updatePlugin store p1) p2).plugins[i]? = some q := by
  have hs1 : get_plugin (updatePlugin store p1) pid = some p1 :=
    get_plugin_updatePlugin hp p1 h1
  refine ⟨get_plugin_updatePlugin hs1 p2 h2, ?_, ?_⟩
  · rw [updatePlugin_length, updatePlugin_length]
  · intro i q hq hne
    exact updatePlugin_frame (updatePlugin_frame hq (by rw [h1]; exact hne))
      (by rw [h2]; exact hne)

theorem eraseP_id_not_mem {l : List Plugin} {pid : Nat}
    (hnd : (l.map Plugin.id).Nodup) :
    ∀ q ∈ l.eraseP (fun x => x.id == pid), q.id ≠ pid := by
  induction l with
  | nil => intro q hq; simp at hq
  | cons a l ih =>
    rw [List.map_cons, List.nodup_cons] at hnd
    by_cases ha : a.id = pid
    · rw [List.eraseP_cons_of_pos (by simp [ha])]
      intro q hq hqid
      apply hnd.1
      rw [ha, ← hqid]
      exact List.mem_map_of_mem _ hq
    · rw [List.eraseP_cons_of_neg (by simp [ha])]
      intro q hq
      rcases List.mem_cons.mp hq with rfl | hq2
      · exact ha
      · exact ih hnd.2 q hq2

theorem modify_plugin_none {store : Store} {pid : Nat}
    (h : get_plugin store pid = none) (env : Env) (pr di : String)
    (no : Option String) :
    modify_plugin env store pid pr di no = (store, some .notFound) := by
  unfold modify_plugin
  rw [h]

theorem modify_plugin_some {store : Store} {pid : Nat} {p : Plugin}
    (hp : get_plugin store pid = some p) (env : Env) (pr di : String)
    (no : Option String) :
    modify_plugin env store pid pr di no =
      if serializer_is_valid p.name pr di p.version = true then
        if truthy no = true then
          if no.getD "" ∈ p.owner then
            (updatePlugin
              (updatePlugin store { p with public_repo := pr, dock_image := di })
              { p with
                public_repo := pr
                dock_image := di
                modification_date := env.now }, none)
          else if no.getD "" ∈ env.users then
            (updatePlugin
              (updatePlugin store { p with public_repo := pr, dock_image := di })
              { p with
                public_repo := pr
                dock_image := di
                owner := p.owner ++ [no.getD ""]
                modification_date := env.now }, none)
          else
            (updatePlugin store { p with public_repo := pr, dock_image := di },
              some .ownerNotFound)
        else
          (updatePlugin
            (updatePlugin store { p with public_repo := pr, dock_image := di })
            { p with
              public_repo := pr
              dock_image := di
              modification_date := env.now }, none)
      else (store, some .validationError) := by
  unfold modify_plugin
  cases hg : get_plugin store pid with
  | none => rw [hg] at hp; exact absurd hp (by simp)
  | some plugin =>
    rw [hp] at hg
    injection hg with hg2
    subst hg2
    rfl

theorem version_ok_resolve {fs : List (String × String)} {dfv : DescriptorFile}
    {ver : String}
    (hver : get_plugin_version_from_app_representation fs dfv = .ok ver) :
    ∃ blob, resolveBlob fs dfv = some blob := by
  unfold get_plugin_version_from_app_representation at hver
  cases hb : resolveBlob fs dfv with
  | none => rw [hb] at hver; exact absurd hver (by simp)
  | some blob => exact ⟨blob, rfl⟩

theorem add_plugin_eq {env : Env} {store : Store} {n o pr di : String}
    {df ds : Option String} {dfv : DescriptorFile} {ver : String} {blob : NamedBlob}
    (hdf : get_plugin_descriptor_file n df ds = .ok dfv)
    (hver : get_plugin_version_from_app_representation env.fs dfv = .ok ver)
    (hb : resolveBlob env.fs dfv = some blob) :
    add_plugin env store n o pr di df ds =
      if serializer_is_valid n pr di ver = true then
        if o ∈ env.users then
          ({ plugins := store.plugins ++
              [{ id := store.nextId, name := n, owner := [o], public_repo := pr,
                 dock_image := di, descriptor_file := blob, version := ver,
                 creation_date := env.now, modification_date := env.now }],
             nextId := store.nextId + 1 }, none)
        else (store, some .ownerNotFound)
      else (store, some .validationError) := by
  unfold add_plugin
  simp only [hdf, hver, hb]

/-! ## The claims -/

/-- C1: for every add command whose descriptor source resolves (via
`get_plugin_descriptor_file`) to well-formed JSON declaring a version, the
plugin record created by a successful `add_plugin` has its version field
equal to the version declared in the descriptor. -/
theorem C1_add_version_matches_descriptor
    (env : Env) (store : Store) (n o pr di : String) (df ds : Option String)
    (dfv : DescriptorFile) (ver : String) (st' : Store)
    (hdf : get_plugin_descriptor_file n df ds = .ok dfv)
    (hver : get_plugin_version_from_app_representation env.fs dfv = .ok ver)
    (hok : add_plugin env store n o pr di df ds = (st', none)) :
    ∃ pl : Plugin, st'.plugins = store.plugins ++ [pl] ∧ pl.version = ver := by
  obtain ⟨blob, hb⟩ := version_ok_resolve hver
  rw [add_plugin_eq hdf hver hb] at hok
  by_cases hv : serializer_is_valid n pr di ver = true
  · rw [if_pos hv] at hok
    by_cases ho : o ∈ env.users
    · rw [if_pos ho] at hok
      rw [Prod.mk.injEq] at hok
      exact ⟨_, by rw [← hok.1], rfl⟩
    · rw [if_neg ho] at hok
      exact absurd hok (by simp)
  · rw [if_neg hv] at hok
    exact absurd hok (by simp)

/-- Witness for C1 at a concrete add of a second plugin. -/
theorem C1_witness :
    ∃ pl : Plugin,
      (⟨[samplePlugin,
          ⟨2, "app2", ["alice"], "r2", "d2", ⟨"app2.json", sampleDescriptor⟩,
            "1.0", 99, 99⟩], 3⟩ : Store).plugins =
        sampleStore.plugins ++ [pl] ∧ pl.version = "1.0" :=
  C1_add_version_matches_descriptor sampleEnv sampleStore ("app2") ("alice") ("r2")
    ("d2") none (some sampleDescriptor)
    (.contentFile ("app2.json") sampleDescriptor) ("1.0")
    (⟨[samplePlugin,
        ⟨2, "app2", ["alice"], "r2", "d2", ⟨"app2.json", sampleDescriptor⟩,
          "1.0", 99, 99⟩], 3⟩ : Store)
    (by rfl) (by rfl) (by rfl)

/-- C2: an add invocation supplying both descriptor arguments, or neither,
fails with a usage error before any operation runs and leaves the store
unchanged. -/
theorem C2_add_usage_error (env : Env) (store : Store) (n o pr di : String) :
    (∀ f s, run env store (.add n o pr di (some f) (some s)) =
      (store, some .usageError)) ∧
    run env store (.add n o pr di none none) = (store, some .usageError) :=
  ⟨fun _ _ => rfl, rfl⟩

/-- C3 counterexample: a modify whose `--newowner` names a user absent from
the user table raises the owner-not-found error, yet the plugin row is not
left unchanged — its public_repo has already been overwritten by the save
that precedes owner validation. -/
theorem C3_counterexample :
    (run sampleEnv sampleStore (.modify 1 ("newrepo") ("newimage")
        (some ("bob")))).2 = some .ownerNotFound ∧
    (get_plugin (run sampleEnv sampleStore (.modify 1 ("newrepo") ("newimage")
        (some ("bob")))).1 1).map Plugin.public_repo = some ("newrepo") ∧
    get_plugin sampleStore 1 = some samplePlugin ∧
    samplePlugin.public_repo = "https://github.com/x/simplefsapp" :=
  ⟨by decide, by decide, by decide, by decide⟩

/-- C3 (amended): when a modify on an existing plugin fails because the
requested `--newowner` username does not exist in the user store, the
invocation raises the owner-not-found error and the plugin row keeps its
prior owners and modification date, but its public_repo and dock_image
have already been set to the new arguments — the serializer save precedes
the owner validation, so the operation is not atomic at the row level. -/
theorem C3_modify_missing_owner_partial (env : Env) (store : Store) (pid : Nat)
    (pr di u : String) (p : Plugin)
    (hp : get_plugin store pid = some p)
    (hvalid : serializer_is_valid p.name pr di p.version = true)
    (hu : truthy (some u) = true)
    (hnotmem : u ∉ p.owner) (hnouser : u ∉ env.users) :
    modify_plugin env store pid pr di (some u) =
      (updatePlugin store { p with public_repo := pr, dock_image := di },
        some .ownerNotFound) ∧
    (get_plugin (modify_plugin env store pid pr di (some u)).1 pid).map
        (fun q => (q.owner, q.modification_date, q.public_repo, q.dock_image)) =
      some (p.owner, p.modification_date, pr, di) := by
  have hmain : modify_plugin env store pid pr di (some u) =
      (updatePlugin store { p with public_repo := pr, dock_image := di },
        some .ownerNotFound) := by
    rw [modify_plugin_some hp, if_pos hvalid, if_pos hu]
    simp only [Option.getD_some]
    rw [if_neg hnotmem, if_neg hnouser]
  refine ⟨hmain, ?_⟩
  have h1 : (modify_plugin env store pid pr di (some u)).1 =
      updatePlugin store { p with public_repo := pr, dock_image := di } := by
    rw [hmain]
  have hid0 : p.id = pid := get_plugin_id hp
  rw [h1, get_plugin_updatePlugin hp
    { p with public_repo := pr, dock_image := di } hid0]
  rfl

/-- Witness for the amended C3 at the sample store and a missing user. -/
theorem C3_witness :
    modify_plugin sampleEnv sampleStore 1 ("newrepo") ("newimage")
        (some ("bob")) =
      (updatePlugin sampleStore
        { samplePlugin with public_repo := "newrepo", dock_image := "newimage" },
        some .ownerNotFound) ∧
    (get_plugin (modify_plugin sampleEnv sampleStore 1 ("newrepo") ("newimage")
        (some ("bob"))).1 1).map
        (fun q => (q.owner, q.modification_date, q.public_repo, q.dock_image)) =
      some (samplePlugin.owner, samplePlugin.modification_date,
        "newrepo", "newimage") :=
  C3_modify_missing_owner_partial sampleEnv sampleStore 1 ("newrepo") ("newimage")
    ("bob") samplePlugin (by decide) (by decide) (by decide) (by decide) (by decide)

/-- C4: a truthy `--descriptorfile` resolves to the path string itself,
denoting the named file's byte content under the file system; a
`--descriptorstring` must parse as JSON — failing with the
malformed-descriptor error otherwise — and the parsed structure is
re-serialized into a blob named `<plugin-name>.json`. -/
theorem C4_descriptor_resolution (n : String) :
    (∀ (p : String) (ds : Option String) (fs : List (String × String))
        (content : String), truthy (some p) = true → fs.lookup p = some content →
      get_plugin_descriptor_file n (some p) ds = .ok (.filePath p) ∧
      resolveBlob fs (.filePath p) = some ⟨p, content⟩) ∧
    (∀ (df : Option String) (s : String), truthy df = false →
      (loads s = none →
        get_plugin_descriptor_file n df (some s) = .error .malformedDescriptor) ∧
      (∀ v, loads s = some v →
        get_plugin_descriptor_file n df (some s) =
          .ok (.contentFile (n ++ ".json") (String.mk (dumps v))))) := by
  constructor
  · intro p ds fs content ht hlook
    constructor
    · unfold get_plugin_descriptor_file
      rw [if_pos ht]
      rfl
    · simp only [resolveBlob, hlook]
  · intro df s hf
    have hf2 : ¬ (truthy df = true) := by rw [hf]; simp
    constructor
    · intro hl
      simp only [get_plugin_descriptor_file, if_neg hf2, hl]
    · intro v hv
      simp only [get_plugin_descriptor_file, if_neg hf2, hv]

/-- Witness for C4: both resolution modes at concrete inputs. -/
theorem C4_witness :
    (get_plugin_descriptor_file ("app2") (some ("descr.json")) none =
        .ok (.filePath ("descr.json")) ∧
      resolveBlob sampleEnv.fs (.filePath ("descr.json")) =
        some ⟨"descr.json", sampleDescriptor⟩) ∧
    get_plugin_descriptor_file ("app2") none (some sampleDescriptor) =
      .ok (.contentFile ("app2.json")
        (String.mk (dumps (Json.obj [(("version").data,
          Json.str (("1.0").data))])))) :=
  ⟨(C4_descriptor_resolution ("app2")).1 ("descr.json") none sampleEnv.fs
      sampleDescriptor (by rfl) (by rfl),
    ((C4_descriptor_resolution ("app2")).2 none sampleDescriptor (by rfl)).2
      (Json.obj [(("version").data, Json.str (("1.0").data))]) (by rfl)⟩

/-- C5: a modify whose `--newowner` equals the username of a user already
among the plugin's owners leaves the owner set unchanged. -/
theorem C5_modify_existing_owner_idempotent (env : Env) (store : Store)
    (pid : Nat) (pr di u : String) (p : Plugin)
    (hp : get_plugin store pid = some p) (hu : u ∈ p.owner) :
    (get_plugin (modify_plugin env store pid pr di (some u)).1 pid).map
      Plugin.owner = some p.owner := by
  have hid := get_plugin_id hp
  by_cases hv : serializer_is_valid p.name pr di p.version = true
  · by_cases ht : truthy (some u) = true
    · have h1 : (modify_plugin env store pid pr di (some u)).1 =
          updatePlugin
            (updatePlugin store { p with public_repo := pr, dock_image := di })
            { p with public_repo := pr, dock_image := di,
                     modification_date := env.now } := by
        rw [modify_plugin_some hp, if_pos hv, if_pos ht]
        simp only [Option.getD_some]
        rw [if_pos hu]
      rw [h1, (double_update hp { p with public_repo := pr, dock_image := di }
        { p with public_repo := pr, dock_image := di,
                 modification_date := env.now } hid hid).1]
      rfl
    · have h1 : (modify_plugin env store pid pr di (some u)).1 =
          updatePlugin
            (updatePlugin store { p with public_repo := pr, dock_image := di })
            { p with public_repo := pr, dock_image := di,
                     modification_date := env.now } := by
        rw [modify_plugin_some hp, if_pos hv, if_neg ht]
      rw [h1, (double_update hp { p with public_repo := pr, dock_image := di }
        { p with public_repo := pr, dock_image := di,
                 modification_date := env.now } hid hid).1]
      rfl
  · have h1 : (modify_plugin env store pid pr di (some u)).1 = store := by
      rw [modify_plugin_some hp, if_neg hv]
    rw [h1, hp]
    rfl

/-- Witness for C5 at the sample store, re-adding the sole owner. -/
theorem C5_witness :
    (get_plugin (modify_plugin sampleEnv sampleStore 1 ("r2") ("d2")
        (some ("cube"))).1 1).map Plugin.owner = some samplePlugin.owner :=
  C5_modify_existing_owner_idempotent sampleEnv sampleStore 1 ("r2") ("d2")
    ("cube") samplePlugin (by decide) (by decide)

/-- C6: a successful modify whose `--newowner` names an existing user not
yet among the owners appends exactly that one owner, preserving all
previous owners (the user store never holds an empty username). -/
theorem C6_modify_new_owner_appends (env : Env) (store : Store) (pid : Nat)
    (pr di u : String) (p : Plugin)
    (hemp : ("" : String) ∉ env.users)
    (hp : get_plugin store pid = some p)
    (huser : u ∈ env.users) (hnot : u ∉ p.owner)
    (hok : (modify_plugin env store pid pr di (some u)).2 = none) :
    (get_plugin (modify_plugin env store pid pr di (some u)).1 pid).map
      Plugin.owner = some (p.owner ++ [u]) := by
  have hne : u ≠ "" := fun e => hemp (e ▸ huser)
  have hu : truthy (some u) = true := by
    simp only [truthy, Bool.not_eq_true']
    cases he : u.isEmpty with
    | false => rfl
    | true => exact absurd ((String.isEmpty_iff u).mp he) hne
  have hid := get_plugin_id hp
  by_cases hv : serializer_is_valid p.name pr di p.version = true
  · have h1 : (modify_plugin env store pid pr di (some u)).1 =
        updatePlugin
          (updatePlugin store { p with public_repo := pr, dock_image := di })
          { p with public_repo := pr, dock_image := di,
                   owner := p.owner ++ [u], modification_date := env.now } := by
      rw [modify_plugin_some hp, if_pos hv, if_pos hu]
      simp only [Option.getD_some]
      rw [if_neg hnot, if_pos huser]
    rw [h1, (double_update hp { p with public_repo := pr, dock_image := di }
      { p with public_repo := pr, dock_image := di,
               owner := p.owner ++ [u], modification_date := env.now } hid hid).1]
    rfl
  · have h2 : (modify_plugin env store pid pr di (some u)).2 =
        some .validationError := by
      rw [modify_plugin_some hp, if_neg hv]
    rw [h2] at hok
    exact absurd hok (by simp)

/-- Witness for C6 at the sample store, adding the second user. -/
theorem C6_witness :
    (get_plugin (modify_plugin sampleEnv sampleStore 1 ("r2") ("d2")
        (some ("alice"))).1 1).map Plugin.owner =
      some (samplePlugin.owner ++ ["alice"]) :=
  C6_modify_new_owner_appends sampleEnv sampleStore 1 ("r2") ("d2") ("alice")
    samplePlugin (by decide) (by decide) (by decide) (by decide) (by decide)

/-- C7: remove on an id with no plugin fails with the not-found error and
changes nothing; remove on an existing id (primary keys being unique)
succeeds and leaves zero rows with that id. -/
theorem C7_remove_plugin_spec (store : Store) (pid : Nat) :
    (get_plugin store pid = none →
      remove_plugin store pid = (store, some .notFound)) ∧
    (∀ p, get_plugin store pid = some p → (store.plugins.map Plugin.id).Nodup →
      (remove_plugin store pid).2 = none ∧
      ∀ q ∈ (remove_plugin store pid).1.plugins, q.id ≠ pid) := by
  constructor
  · intro h
    unfold remove_plugin
    rw [h]
  · intro p hp hnd
    unfold remove_plugin
    rw [hp]
    exact ⟨rfl, eraseP_id_not_mem hnd⟩

/-- Witness for C7: removing a missing id, then the sample plugin's id. -/
theorem C7_witness :
    remove_plugin sampleStore 7 = (sampleStore, some .notFound) ∧
    ((remove_plugin sampleStore 1).2 = none ∧
      ∀ q ∈ (remove_plugin sampleStore 1).1.plugins, q.id ≠ 1) :=
  ⟨(C7_remove_plugin_spec sampleStore 7).1 (by decide),
    (C7_remove_plugin_spec sampleStore 1).2 samplePlugin (by decide) (by decide)⟩

/-- C8: a successful modify preserves the plugin's name, descriptor file
and version, sets public_repo and dock_image to the given arguments,
stamps the modification date with the current time, and affects no other
row. -/
theorem C8_modify_success_frame (env : Env) (store : Store) (pid : Nat)
    (pr di : String) (no : Option String) (p : Plugin)
    (hp : get_plugin store pid = some p)
    (hok : (modify_plugin env store pid pr di no).2 = none) :
    (∃ p', get_plugin (modify_plugin env store pid pr di no).1 pid = some p' ∧
      p'.name = p.name ∧ p'.descriptor_file = p.descriptor_file ∧
      p'.version = p.version ∧ p'.public_repo = pr ∧ p'.dock_image = di ∧
      p'.modification_date = env.now) ∧
    (modify_plugin env store pid pr di no).1.plugins.length =
      store.plugins.length ∧
    ∀ (i : Nat) (q : Plugin), store.plugins[i]? = some q → q.id ≠ pid →
      (modify_plugin env store pid pr di no).1.plugins[i]? = some q := by
  have hid := get_plugin_id hp
  by_cases hv : serializer_is_valid p.name pr di p.version = true
  · by_cases ht : truthy no = true
    · by_cases hmem : no.getD "" ∈ p.owner
      · have h1 : (modify_plugin env store pid pr di no).1 =
            updatePlugin
              (updatePlugin store { p with public_repo := pr, dock_image := di })
              { p with public_repo := pr, dock_image := di,
                       modification_date := env.now } := by
          rw [modify_plugin_some hp, if_pos hv, if_pos ht, if_pos hmem]
        obtain ⟨hg, hlen, hframe⟩ := double_update hp
          { p with public_repo := pr, dock_image := di }
          { p with public_repo := pr, dock_image := di,
                   modification_date := env.now } hid hid
        rw [h1]
        exact ⟨⟨_, hg, rfl, rfl, rfl, rfl, rfl, rfl⟩, hlen, hframe⟩
      · by_cases huser : no.getD "" ∈ env.users
        · have h1 : (modify_plugin env store pid pr di no).1 =
              updatePlugin
                (updatePlugin store { p with public_repo := pr, dock_image := di })
                { p with public_repo := pr, dock_image := di,
                         owner := p.owner ++ [no.getD ""],
                         modification_date := env.now } := by
            rw [modify_plugin_some hp, if_pos hv, if_pos ht, if_neg hmem,
              if_pos huser]
          obtain ⟨hg, hlen, hframe⟩ := double_update hp
            { p with public_repo := pr, dock_image := di }
            { p with public_repo := pr, dock_image := di,
                     owner := p.owner ++ [no.getD ""],
                     modification_date := env.now } hid hid
          rw [h1]
          exact ⟨⟨_, hg, rfl, rfl, rfl, rfl, rfl, rfl⟩, hlen, hframe⟩
        · have h2 : (modify_plugin env store pid pr di no).2 =
              some .ownerNotFound := by
            rw [modify_plugin_some hp, if_pos hv, if_pos ht, if_neg hmem,
              if_neg huser]
          rw [h2] at hok
          exact absurd hok (by simp)
    · have h1 : (modify_plugin env store pid pr di no).1 =
          updatePlugin
            (updatePlugin store { p with public_repo := pr, dock_image := di })
            { p with public_repo := pr, dock_image := di,
                     modification_date := env.now } := by
        rw [modify_plugin_some hp, if_pos hv, if_neg ht]
      obtain ⟨hg, hlen, hframe⟩ := double_update hp
        { p with public_repo := pr, dock_image := di }
        { p with public_repo := pr, dock_image := di,
                 modification_date := env.now } hid hid
      rw [h1]
      exact ⟨⟨_, hg, rfl, rfl, rfl, rfl, rfl, rfl⟩, hlen, hframe⟩
  · have h2 : (modify_plugin env store pid pr di no).2 =
        some .validationError := by
      rw [modify_plugin_some hp, if_neg hv]
    rw [h2] at hok
    exact absurd hok (by simp)

/-- Witness for C8 at the sample store, a modify with no new owner. -/
theorem C8_witness :
    (∃ p', get_plugin (modify_plugin sampleEnv sampleStore 1 ("r2") ("d2")
        none).1 1 = some p' ∧
      p'.name = samplePlugin.name ∧
      p'.descriptor_file = samplePlugin.descriptor_file ∧
      p'.version = samplePlugin.version ∧ p'.public_repo = "r2" ∧
      p'.dock_image = "d2" ∧ p'.modification_date = sampleEnv.now) ∧
    (modify_plugin sampleEnv sampleStore 1 ("r2") ("d2") none).1.plugins.length =
      sampleStore.plugins.length ∧
    ∀ (i : Nat) (q : Plugin), sampleStore.plugins[i]? = some q → q.id ≠ 1 →
      (modify_plugin sampleEnv sampleStore 1 ("r2") ("d2")
        none).1.plugins[i]? = some q :=
  C8_modify_success_frame sampleEnv sampleStore 1 ("r2") ("d2") none samplePlugin
    (by decide) (by decide)

/-- C9: every operation preserves the invariant that each plugin row has
at least one owner — add creates a single-owner row, modify only ever
appends an owner, remove deletes whole rows. -/
theorem C9_owners_invariant (env : Env) (store : Store) (cmd : Cmd)
    (hinv : ∀ p ∈ store.plugins, p.owner ≠ []) :
    ∀ p ∈ (run env store cmd).1.plugins, p.owner ≠ [] := by
  cases cmd with
  | add n o pr di df ds =>
    simp only [run]
    split
    · exact hinv
    · split
      · exact hinv
      · cases hdf : get_plugin_descriptor_file n df ds with
        | error e =>
          have h1 : add_plugin env store n o pr di df ds = (store, some e) := by
            unfold add_plugin
            simp only [hdf]
          rw [h1]
          exact hinv
        | ok dfv =>
          cases hver : get_plugin_version_from_app_representation env.fs dfv with
          | error e =>
            have h1 : add_plugin env store n o pr di df ds = (store, some e) := by
              unfold add_plugin
              simp only [hdf, hver]
            rw [h1]
            exact hinv
          | ok ver =>
            obtain ⟨blob, hb⟩ := version_ok_resolve hver
            rw [add_plugin_eq hdf hver hb]
            split
            · split
              · intro q hq
                rcases List.mem_append.mp hq with h | h
                · exact hinv q h
                · obtain rfl := List.mem_singleton.mp h
                  simp
              · exact hinv
            · exact hinv
  | modify pid pr di no =>
    simp only [run]
    cases hg : get_plugin store pid with
    | none =>
      rw [modify_plugin_none hg]
      exact hinv
    | some plugin =>
      have howner : plugin.owner ≠ [] := hinv plugin (get_plugin_mem hg)
      rw [modify_plugin_some hg]
      split
      · split
        · split
          · intro q hq
            rcases mem_updatePlugin hq with rfl | hq2
            · exact howner
            · rcases mem_updatePlugin hq2 with rfl | hq3
              · exact howner
              · exact hinv q hq3
          · split
            · intro q hq
              rcases mem_updatePlugin hq with rfl | hq2
              · simp
              · rcases mem_updatePlugin hq2 with rfl | hq3
                · exact howner
                · exact hinv q hq3
            · intro q hq
              rcases mem_updatePlugin hq with rfl | hq2
              · exact howner
              · exact hinv q hq2
        · intro q hq
          rcases mem_updatePlugin hq with rfl | hq2
          · exact howner
          · rcases mem_updatePlugin hq2 with rfl | hq3
            · exact howner
            · exact hinv q hq3
      · exact hinv
  | remove pid =>
    simp only [run]
    unfold remove_plugin
    cases hg : get_plugin store pid with
    | none => exact hinv
    | some plugin =>
      intro q hq
      exact hinv q ((List.eraseP_sublist _).subset hq)

/-- Witness for C9 at the sample store and a modify command. -/
theorem C9_witness :
    (∀ p ∈ sampleStore.plugins, p.owner ≠ []) ∧
    ∀ p ∈ (run sampleEnv sampleStore
        (.modify 1 ("r2") ("d2") (some ("alice")))).1.plugins, p.owner ≠ [] :=
  ⟨by decide, C9_owners_invariant sampleEnv sampleStore
    (.modify 1 ("r2") ("d2") (some ("alice"))) (by decide)⟩

/-- C10: for every valid JSON `--descriptorstring`, the content of the
resolved descriptor blob parses back to the very JSON value the input
string parses to — the parse/re-serialize step is a round trip on the
JSON value. -/
theorem C10_descriptorstring_roundtrip (n : String) (df : Option String)
    (s : String) (v : Json)
    (hdf : truthy df = false) (hs : loads s = some v) :
    get_plugin_descriptor_file n df (some s) =
      .ok (.contentFile (n ++ ".json") (String.mk (dumps v))) ∧
    loads (String.mk (dumps v)) = some v := by
  constructor
  · simp only [get_plugin_descriptor_file, if_neg
      (show ¬ (truthy df = true) by rw [hdf]; simp), hs]
  · exact loads_dumps v

/-- Witness for C10 at the sample descriptor text. -/
theorem C10_witness :
    get_plugin_descriptor_file ("app2") none (some sampleDescriptor) =
      .ok (.contentFile ("app2.json")
        (String.mk (dumps (Json.obj [(("version").data,
          Json.str (("1.0").data))])))) ∧
    loads (String.mk (dumps (Json.obj [(("version").data,
        Json.str (("1.0").data))]))) =
      some (Json.obj [(("version").data, Json.str (("1.0").data))]) :=
  C10_descriptorstring_roundtrip ("app2") none sampleDescriptor
    (Json.obj [(("version").data, Json.str (("1.0").data))]) (by rfl) (by rfl)

end PluginManager

end ChrisStore
